import Mathlib

/-! Verification development for the swyft simulation-trace / lazy-DAG engine and
the zarr-backed sample store (`src/swyft/lightning/components.py`).

The Python code is shallowly embedded as executable Lean definitions:
values are a small inductive `Val` type, the `Trace` dict subclass is an
insertion-ordered association list, `LazyValue` objects are inductive DAG
nodes, and evaluation threads an explicit state holding the trace together
with a per-function invocation counter (so that theorems can speak about how
often an underlying function is invoked).  Python recursion is bounded by an
explicit fuel argument (structural on `Nat`), so every definition computes by
kernel reduction; all theorems hold for every sufficiently large fuel, and
the fuel plays no other role.
-/

set_option autoImplicit false

instance {ε α : Type} [DecidableEq ε] [DecidableEq α] : DecidableEq (Except ε α) :=
  fun a b =>
    match a, b with
    | Except.ok x, Except.ok y =>
        if h : x = y then isTrue (congrArg Except.ok h)
        else isFalse fun hc => h (Except.ok.inj hc)
    | Except.error x, Except.error y =>
        if h : x = y then isTrue (congrArg Except.error h)
        else isFalse fun hc => h (Except.error.inj hc)
    | Except.ok _, Except.error _ => isFalse fun hc => Except.noConfusion hc
    | Except.error _, Except.ok _ => isFalse fun hc => Except.noConfusion hc

namespace Swyft

/-- Python values flowing through a trace: integers, strings, tuples (encoded
as `vnil`-terminated nested pairs, so that equality stays structurally
decidable), and `vundef` standing for the result of a lookup that would raise
`KeyError` in Python (never produced on the code paths exercised by the
claims). -/
inductive Val where
  | vint : Int → Val
  | vstr : String → Val
  | vnil : Val
  | vpair : Val → Val → Val
  | vundef : Val
deriving DecidableEq

/-- The elements of a tuple value, in order (non-tuples have no elements;
Python would raise `TypeError` when iterating them, a path no claim reaches). -/
def Val.elems : Val → List Val
  | .vpair a rest => a :: Val.elems rest
  | _ => []

/-- Embedding of `Trace` (components.py:84-147): a dict subclass recording simulation
results, embedded as an insertion-ordered association list `entries` together
with the attributes set in `Trace.__init__` (components.py:87-99).  The
current name-scoping string `Trace._prefix` is called `pfx` here. -/
structure Trace where
  entries : List (String × Val)
  targets : Option (List String)
  pfx : String
  evalLogProbs : Bool
deriving DecidableEq

/-- Membership test `k in self.keys()` used by `Trace.__setitem__`. -/
def Trace.hasKey (t : Trace) (k : String) : Bool :=
  t.entries.any fun p => p.1 == k

/-- Dictionary lookup `self[k]` on a trace (first binding of `k`). -/
def Trace.lookup (t : Trace) (k : String) : Option Val :=
  (t.entries.find? fun p => p.1 == k).map Prod.snd

/-- Total lookup; `Val.vundef` stands for Python's `KeyError`. -/
def Trace.getD (t : Trace) (k : String) : Val :=
  (t.lookup k).getD Val.vundef

/-- Embedding of `Trace.__setitem__` (components.py:104-106): write-once insertion — a
write to an existing key is silently dropped, otherwise the pair is appended
in insertion order. -/
def Trace.setItem (t : Trace) (k : String) (v : Val) : Trace :=
  if t.hasKey k then t
  else { t with entries := t.entries ++ [(k, v)] }

/-- Embedding of `Trace.covers_targets` (components.py:108-111): true iff a target list
was given and every target is already a key. -/
def Trace.covers_targets (t : Trace) : Bool :=
  match t.targets with
  | none => false
  | some ts => ts.all fun k => t.hasKey k

/-- A built "distribution instance" as returned by the `fn` of a
`sample_dist` node: it can be sampled (modelled as a fixed value, the code
does not rely on randomness) and queried for a log-probability. -/
structure DistInstance where
  sampleVal : Val
  log_prob : Val → Val

/-- The two flavours of `LazyValue._fn` distinguished by the `dist` flag
(components.py:165-182, 203-207): a plain callable returning the sample(s),
or a distribution factory whose instance is sampled. -/
inductive FnKind where
  | plain : (List Val → Val) → FnKind
  | dist : (List Val → DistInstance) → FnKind

/-- The `dist` flag carried by a node. -/
def FnKind.isDist : FnKind → Bool
  | .plain _ => false
  | .dist _ => true

/-- Embedding of `LazyValue._fn_out_names`: a single name or a list of names populated by
one function call (components.py:208-212). -/
inductive FnOutNames where
  | single : String → FnOutNames
  | multi : List String → FnOutNames

mutual
/-- Embedding of `LazyValue` (components.py:162-220): a deferred DAG node.  Fields mirror
the constructor arguments `(this_name, fn_out_names, fn, dist, args)`;
`fnName` is a label identifying the underlying function so that theorems can
count its invocations, and `kind` bundles `fn` with the `dist` flag.  Python
kwargs are modelled as additional positional arguments (they are evaluated
the same way, components.py:201-202). -/
inductive LazyNode where
  | mk : (this_name : String) → (fn_out_names : FnOutNames) → (fnName : String) →
      (kind : FnKind) → (args : List LazyArg) → LazyNode
/-- An argument of a node: an eager plain value or a nested `LazyValue`
(evaluated on demand, components.py:201). -/
inductive LazyArg where
  | eager : Val → LazyArg
  | lazy : LazyNode → LazyArg
end

def LazyNode.this_name : LazyNode → String
  | .mk n _ _ _ _ => n

def LazyNode.fnName : LazyNode → String
  | .mk _ _ f _ _ => f

def LazyNode.kind : LazyNode → FnKind
  | .mk _ _ _ k _ => k

def LazyNode.args : LazyNode → List LazyArg
  | .mk _ _ _ _ a => a

def LazyArg.isEager : LazyArg → Bool
  | .eager _ => true
  | .lazy _ => false

/-- The values of an all-eager argument list (`vundef` pads lazy positions;
only used under an all-eager hypothesis). -/
def eagerVals : List LazyArg → List Val
  | [] => []
  | .eager v :: rest => v :: eagerVals rest
  | .lazy _ :: rest => Val.vundef :: eagerVals rest

/-- Evaluation state: the trace being populated plus a per-function-label
invocation counter (the counter is a proof artefact recording how often each
`fn` has been called; it does not influence control flow). -/
structure EvalState where
  trace : Trace
  calls : String → Nat

/-- Record one invocation of the function labelled `f`. -/
def EvalState.bump (s : EvalState) (f : String) : EvalState :=
  { s with calls := fun n => if n = f then s.calls n + 1 else s.calls n }

/-- Distribution of one function result over the output names
(components.py:208-212): a single name receives the whole result, a name
list is zipped against the elements of the result.  (Python raises
`TypeError` when zipping a non-iterable result; that path is not modelled
and not reached by any claim.) -/
def Trace.storeResult (t : Trace) (outs : FnOutNames) (result : Val) : Trace :=
  match outs with
  | .single n => t.setItem n result
  | .multi ns => (ns.zip result.elems).foldl (fun tr p => tr.setItem p.1 p.2) t

/-- Evaluation of the arguments of a node, depth-first and left-to-right
(components.py:201-202); `ev` is the evaluator used for nested nodes. -/
def evalArgsF (ev : LazyNode → EvalState → Val × EvalState) :
    List LazyArg → EvalState → List Val × EvalState
  | [], s => ([], s)
  | .eager v :: rest, s =>
      let r := evalArgsF ev rest s
      (v :: r.1, r.2)
  | .lazy n :: rest, s =>
      let r1 := ev n s
      let r2 := evalArgsF ev rest r1.2
      (r1.1 :: r2.1, r2.2)

/-- Embedding of `LazyValue.evaluate` (components.py:193-220), with recursion depth
bounded by `fuel` (every claim holds for all sufficiently large fuel).
Step 1: if `this_name` is not yet a trace key, evaluate the arguments,
invoke `fn` (building and sampling a distribution instance when `dist`),
and distribute the result over the output names.  Step 2: when the trace
collects log-probabilities, `this_name` is truthy and the node is a
distribution node, compute `log_prob` on the stored value — rebuilding the
distribution instance (re-invoking `fn`) when step 1 did not build one —
and store it under `this_name ++ ":log_prob"`.  Finally return the trace
entry of `this_name`. -/
def evalNodeF : Nat → LazyNode → EvalState → Val × EvalState
  | 0, _, s => (Val.vundef, s)
  | Nat.succ fuel, LazyNode.mk this_name fn_out_names fName kind args, s =>
      let step1 : Option DistInstance × EvalState :=
        if s.trace.hasKey this_name then (none, s)
        else
          match kind with
          | FnKind.plain f =>
              let r := evalArgsF (evalNodeF fuel) args s
              let sB := r.2.bump fName
              (none, { sB with trace := sB.trace.storeResult fn_out_names (f r.1) })
          | FnKind.dist f =>
              let r := evalArgsF (evalNodeF fuel) args s
              let sB := r.2.bump fName
              let inst := f r.1
              (some inst, { sB with trace := sB.trace.storeResult fn_out_names inst.sampleVal })
      let s2 : EvalState :=
        match kind with
        | FnKind.plain _ => step1.2
        | FnKind.dist f =>
            if step1.2.trace.evalLogProbs && (this_name != "") then
              let r3 : DistInstance × EvalState :=
                match step1.1 with
                | some i => (i, step1.2)
                | none =>
                    let r := evalArgsF (evalNodeF fuel) args step1.2
                    (f r.1, r.2.bump fName)
              let lp := r3.1.log_prob (r3.2.trace.getD this_name)
              { r3.2 with trace := r3.2.trace.setItem (this_name ++ ":log_prob") lp }
            else step1.2
      (s2.trace.getD this_name, s2)

/-- The `names` argument of `Trace.sample` / `Trace._sample`: a single
string, a list of strings, or anything else (which raises `ValueError`,
components.py:143-144). -/
inductive NamesArg where
  | single : String → NamesArg
  | listNames : List String → NamesArg
  | badType : NamesArg

/-- Result of a successful `_sample`: one `LazyValue` or a tuple of them. -/
inductive SampleRes where
  | one : LazyNode → SampleRes
  | many : List LazyNode → SampleRes

/-- The eager-evaluation test of the single-name branch of `Trace._sample`
(components.py:140): `self._targets is None or name in self._targets`. -/
def eagerSingle (t : Trace) (name : String) : Bool :=
  match t.targets with
  | none => true
  | some ts => ts.contains name

/-- The eager-evaluation test of the list branch of `Trace._sample`
(components.py:134): `self._targets is None or any(k in self._targets)`. -/
def eagerMulti (t : Trace) (pns : List String) : Bool :=
  match t.targets with
  | none => true
  | some ts => pns.any fun k => ts.contains k

/-- The `LazyValue` registered by the single-name branch of `_sample`. -/
def mkSingleNode (t : Trace) (n fName : String) (kind : FnKind)
    (args : List LazyArg) : LazyNode :=
  LazyNode.mk (t.pfx ++ n) (FnOutNames.single (t.pfx ++ n)) fName kind args

/-- The `LazyValue` tuple registered by the list branch of `_sample` (each
node shares the full prefixed name list as its `fn_out_names`). -/
def mkListNodes (t : Trace) (ns : List String) (fName : String) (kind : FnKind)
    (args : List LazyArg) : List LazyNode :=
  (ns.map fun m => t.pfx ++ m).map fun k =>
    LazyNode.mk k (FnOutNames.multi (ns.map fun m => t.pfx ++ m)) fName kind args

/-- Embedding of `Trace._sample` (components.py:130-144): prefix the requested name(s),
build the `LazyValue`(s), and evaluate the first one immediately when there
is no target list or one of the prefixed names is a target.  A list
argument returns the tuple of nodes, a string returns one node, anything
else raises `ValueError`; an empty name list under eager evaluation hits
`lazy_values[0]` and raises `IndexError`. -/
def Trace._sample (fuel : Nat) (s : EvalState) (names : NamesArg)
    (fName : String) (kind : FnKind) (args : List LazyArg) :
    Except String (SampleRes × EvalState) :=
  match names with
  | NamesArg.listNames ns =>
      let lvs := mkListNodes s.trace ns fName kind args
      if eagerMulti s.trace (ns.map fun m => s.trace.pfx ++ m) then
        match lvs with
        | lv0 :: _ => Except.ok (SampleRes.many lvs, (evalNodeF fuel lv0 s).2)
        | [] => Except.error "IndexError"
      else Except.ok (SampleRes.many lvs, s)
  | NamesArg.single n =>
      let lv := mkSingleNode s.trace n fName kind args
      if eagerSingle s.trace (s.trace.pfx ++ n) then
        Except.ok (SampleRes.one lv, (evalNodeF fuel lv s).2)
      else Except.ok (SampleRes.one lv, s)
  | NamesArg.badType => Except.error "ValueError"

/-- Embedding of `Trace.sample` (components.py:113-125): `_sample` with `dist = False`
(the callability assertion always holds in the embedding). -/
def Trace.sample (fuel : Nat) (s : EvalState) (names : NamesArg)
    (fName : String) (f : List Val → Val) (args : List LazyArg) :
    Except String (SampleRes × EvalState) :=
  Trace._sample fuel s names fName (FnKind.plain f) args

/-- Embedding of `Trace.sample_dist` (components.py:127-128): `_sample` with `dist = True`. -/
def Trace.sample_dist (fuel : Nat) (s : EvalState) (names : NamesArg)
    (fName : String) (f : List Val → DistInstance) (args : List LazyArg) :
    Except String (SampleRes × EvalState) :=
  Trace._sample fuel s names fName (FnKind.dist f) args

/-- Embedding of `TracePrefixContextManager.__enter__` (components.py:155-156): the trace
gets `p ++` its current scoping string; the previous scoping string is
returned for restoration on exit. -/
def Trace.scopeEnter (t : Trace) (p : String) : Trace × String :=
  ({ t with pfx := p ++ t.pfx }, t.pfx)

/-- Embedding of `TracePrefixContextManager.__exit__` (components.py:158-159): restore
the saved scoping string unconditionally (also when an exception propagates
through the scope). -/
def Trace.scopeExit (t : Trace) (saved : String) : Trace :=
  { t with pfx := saved }

/-- The `with trace.prefix(p): body` protocol (components.py:146-159): enter,
run the body (which returns the mutated trace and an optional exception),
then always exit; an exception from the body propagates unchanged. -/
def Trace.withScope (t : Trace) (p : String)
    (body : Trace → Trace × Option String) : Trace × Option String :=
  let e := t.scopeEnter p
  let r := body e.1
  (r.1.scopeExit e.2, r.2)

/-- Python `dict` construction from an iterable of pairs: a repeated key
keeps its first insertion position but takes the last value. -/
def dictUpsert (l : List (String × Val)) (p : String × Val) : List (String × Val) :=
  if l.any fun q => q.1 == p.1 then
    l.map fun q => if q.1 == p.1 then (q.1, p.2) else q
  else l ++ [p]

/-- Association list of a Python `dict` built from `l`. -/
def dictOf (l : List (String × Val)) : List (String × Val) :=
  l.foldl dictUpsert []

/-- Embedding of `Trace.__init__` (components.py:87-99): the trace starts as a dict of the
conditions, with the given targets, empty scoping string and the `log_prob`
flag. -/
def Trace.make (targets : Option (List String)) (conditions : List (String × Val))
    (log_prob : Bool) : Trace :=
  { entries := dictOf conditions, targets := targets, pfx := "",
    evalLogProbs := log_prob }

/-- Embedding of `Simulator._run` (components.py:251-266), parameterised by the abstract
DAG-construction function `fwd` (`Simulator.forward`, acting on the
evaluation state) and the two hooks (`on_before_forward`,
`on_after_forward`; both default to the identity, components.py:237-249).
A callable `conditions` argument is modelled by its resulting dict.  The
construction function runs only when the initial trace does not already
cover the targets; afterwards, uncovered targets (with a target list given)
raise `ValueError("Missing simulation targets.")`, and otherwise the
post-processed dict of the trace is returned. -/
def Simulator._run (fwd : EvalState → EvalState)
    (on_before_forward on_after_forward : List (String × Val) → List (String × Val))
    (targets : Option (List String)) (conditions : List (String × Val))
    (log_prob : Bool) : Except String (List (String × Val)) :=
  let conditions := on_before_forward conditions
  let t0 := Trace.make targets conditions log_prob
  let s0 : EvalState := { trace := t0, calls := fun _ => 0 }
  let s1 := if t0.covers_targets then s0 else fwd s0
  if targets.isSome && !s1.trace.covers_targets then
    Except.error "Missing simulation targets."
  else
    Except.ok (on_after_forward s1.trace.entries)

/-- One step of the loop of `get_index_slices` (components.py:1040-1045):
split the residual index list into the entries satisfying the mask
`residual - residual[0] - arange(len(residual)) == 0` and the rest. -/
def gisSplit (residual : List Int) : List Int × List Int :=
  match residual with
  | [] => ([], [])
  | r0 :: _ =>
      ((residual.enum.filter fun p => p.2 - r0 - (p.1 : Int) == 0).map Prod.snd,
       (residual.enum.filter fun p => !(p.2 - r0 - (p.1 : Int) == 0)).map Prod.snd)

/-- The while-loop of `get_index_slices`; `fuel` bounds the number of
iterations (each iteration removes at least the first residual element, so
`residual.length` iterations always suffice). -/
def gisLoop : Nat → Int → List Int → List (List (List Int))
  | 0, _, _ => []
  | _ + 1, _, [] => []
  | fuel + 1, pointer, residual =>
      let kept := (gisSplit residual).1
      let rest := (gisSplit residual).2
      let cnt : Int := kept.length
      [[pointer, pointer + cnt], [kept.headD 0, kept.getLastD 0 + 1]]
        :: gisLoop fuel (pointer + cnt) rest

/-- Embedding of `get_index_slices` (components.py:1033-1046): compress an index list
into a list of pairs `[slc2, slc1]` where `slc2 = [pointer, pointer + k)`
enumerates positions in the batch and `slc1` is the corresponding index
range `[first, last + 1)` of the masked entries. -/
def get_index_slices (idx : List Int) : List (List (List Int)) :=
  gisLoop idx.length 0 idx

/-- A zarr array of the store: its full shape (leading entry is the store
length), chunk shape and dtype.  The claims about `ZarrStore` concern the
schema and lengths only, so array contents are not carried. -/
structure ZArr where
  shape : List Nat
  chunks : List Nat
  dtype : String
deriving DecidableEq

/-- Embedding of `zarr.Array.resize(N, *shape[1:])`: the leading extent becomes `N`. -/
def ZArr.resizeLen (a : ZArr) (N : Nat) : ZArr :=
  { a with shape := N :: a.shape.tail }

/-- Embedding of `ZarrStore` (components.py:1085-1215): the persisted directory store,
reduced to what the claims exercise — the `data/<variable>` arrays
(`none` when the `data` group does not exist yet), the `meta/sim_status`
array, and the `chunk_size` attribute. -/
structure ZarrStore where
  data : Option (List (String × ZArr))
  simStatus : Option ZArr
  chunkAttr : Option Nat
deriving DecidableEq

/-- Lookup of a named array in the `data` group. -/
def zlookup (l : List (String × ZArr)) (k : String) : Option ZArr :=
  (l.find? fun p => p.1 == k).map Prod.snd

/-- Embedding of `ZarrStore.__len__` (components.py:1113-1120): 0 when the `data` group
is absent; otherwise the common leading extent of all data arrays
(`IndexError` on an empty group, `AssertionError` when the extents
disagree). -/
def ZarrStore.lenE (st : ZarrStore) : Except String Nat :=
  match st.data with
  | none => Except.ok 0
  | some [] => Except.error "IndexError"
  | some ((_, a) :: rest) =>
      let N := a.shape.headD 0
      if rest.all fun p => p.2.shape.headD 0 == N then Except.ok N
      else Except.error "AssertionError"

/-- Embedding of `self.root.zeros('data/' + k, ...)` wrapped in the
`try/except zarr.errors.ContainsArrayError` of `_init_shapes`
(components.py:1141-1146): create the array when absent, otherwise assert
that the recorded shape, chunks and dtype equal the requested ones. -/
def ZarrStore.zerosData (st : ZarrStore) (k : String) (shape chunks : List Nat)
    (dtype : String) : Except String ZarrStore :=
  let l := st.data.getD []
  match zlookup l k with
  | none => Except.ok { st with data := some (l ++ [(k, ⟨shape, chunks, dtype⟩)]) }
  | some a =>
      if a.shape ≠ shape then Except.error "Inconsistent array sizes"
      else if a.chunks ≠ chunks then Except.error "Inconsistent chunk sizes"
      else if a.dtype ≠ dtype then Except.error "Inconsistent dtype"
      else Except.ok st

/-- Embedding of `ZarrStore._init_shapes` (components.py:1136-1154): create or check each
`data/<k>` array (`dtypes[k]` raises `KeyError` when missing), then the
`meta/sim_status` array (only its shape is asserted when it already
exists), then record or assert the `chunk_size` attribute. -/
def ZarrStore._init_shapes (st0 : ZarrStore) (shapes : List (String × List Nat))
    (dtypes : List (String × String)) (N chunk_size : Nat) :
    Except String ZarrStore := do
  let st1 ← shapes.foldlM (fun st p =>
      match (dtypes.find? fun q => q.1 == p.1).map Prod.snd with
      | none => Except.error "KeyError"
      | some dt => st.zerosData p.1 (N :: p.2) (chunk_size :: p.2) dt) st0
  let st2 ← (match st1.simStatus with
      | none => Except.ok { st1 with simStatus := some ⟨[N], [chunk_size], "i4"⟩ }
      | some a =>
          if a.shape ≠ [N] then Except.error "Inconsistent array sizes"
          else Except.ok st1)
  match st2.chunkAttr with
  | none => Except.ok { st2 with chunkAttr := some chunk_size }
  | some c =>
      if c = chunk_size then Except.ok st2
      else Except.error "Inconsistent chunk size"

/-- Embedding of `ZarrStore.init` (components.py:1106-1111): when the store already has
nonzero length it prints "WARNING: Already initialized." and returns itself
unchanged — without looking at the supplied schema; only otherwise does it
run `_init_shapes`. -/
def ZarrStore.init (st : ZarrStore) (N chunk_size : Nat)
    (shapes : List (String × List Nat)) (dtypes : List (String × String)) :
    Except String ZarrStore :=
  match st.lenE with
  | Except.error e => Except.error e
  | Except.ok n =>
      if n > 0 then Except.ok st
      else st._init_shapes shapes dtypes N chunk_size

/-- Embedding of `ZarrStore.set_length` (components.py:1094-1104): reject a shrink unless
`clubber` is set, before touching any array; otherwise resize every data
array and then `meta/sim_status` to leading extent `N`.  (A missing `data`
group or status array would raise `KeyError` in Python — for the status
array only after the data arrays were already resized; no claim reaches
either path.) -/
def ZarrStore.set_length (st : ZarrStore) (N : Nat) (clubber : Bool) :
    Except String ZarrStore :=
  match st.lenE with
  | Except.error e => Except.error e
  | Except.ok n =>
      if N < n ∧ clubber = false then
        Except.error "New length shorter than current store length"
      else
        match st.data with
        | none => Except.error "KeyError"
        | some l =>
            match st.simStatus with
            | none => Except.error "KeyError"
            | some ss =>
                Except.ok { st with
                  data := some (l.map fun p => (p.1, p.2.resizeLen N)),
                  simStatus := some { ss with shape := [N] } }

/-! Helper lemmas about the trace primitives. -/

theorem hasKey_setItem_self (t : Trace) (k : String) (v : Val) :
    (t.setItem k v).hasKey k = true := by
  by_cases h : t.hasKey k = true
  · rw [Trace.setItem, if_pos h]
    exact h
  · simp only [Bool.not_eq_true] at h
    rw [Trace.setItem, if_neg (by simp [h])]
    show (t.entries ++ [(k, v)]).any (fun p => p.1 == k) = true
    rw [List.any_append]
    simp

theorem find?_eq_none_of_hasKey_false (t : Trace) (k : String)
    (hk : t.hasKey k = false) :
    t.entries.find? (fun p => p.1 == k) = none := by
  rw [List.find?_eq_none]
  intro p hp hbe
  have hany : t.entries.any (fun p => p.1 == k) = true :=
    List.any_eq_true.mpr ⟨p, hp, hbe⟩
  have : t.hasKey k = true := hany
  rw [this] at hk
  cases hk

theorem getD_setItem_fresh (t : Trace) (k : String) (v : Val)
    (hk : t.hasKey k = false) : (t.setItem k v).getD k = v := by
  rw [Trace.setItem, if_neg (by simp [hk])]
  show Trace.getD { t with entries := t.entries ++ [(k, v)] } k = v
  rw [Trace.getD, Trace.lookup]
  show ((((t.entries ++ [(k, v)]).find? fun (p : String × Val) => p.1 == k).map
      Prod.snd).getD Val.vundef) = v
  rw [List.find?_append, find?_eq_none_of_hasKey_false t k hk]
  simp

theorem setItem_evalLogProbs (t : Trace) (k : String) (v : Val) :
    (t.setItem k v).evalLogProbs = t.evalLogProbs := by
  unfold Trace.setItem
  split <;> rfl

theorem setItem_targets (t : Trace) (k : String) (v : Val) :
    (t.setItem k v).targets = t.targets := by
  unfold Trace.setItem
  split <;> rfl

theorem setItem_pfx (t : Trace) (k : String) (v : Val) :
    (t.setItem k v).pfx = t.pfx := by
  unfold Trace.setItem
  split <;> rfl

theorem evalArgsF_eager (ev : LazyNode → EvalState → Val × EvalState)
    (l : List LazyArg) (ha : l.all LazyArg.isEager = true) (s : EvalState) :
    evalArgsF ev l s = (eagerVals l, s) := by
  induction l with
  | nil => simp [evalArgsF, eagerVals]
  | cons a rest ih =>
      cases a with
      | eager v =>
          simp only [List.all_cons, Bool.and_eq_true] at ha
          simp [evalArgsF, eagerVals, ih ha.2]
      | lazy n => simp [List.all_cons, LazyArg.isEager] at ha

/-- Memoization: evaluating a node whose `this_name` is already a trace key
returns the stored value and leaves the whole state untouched, provided the
log-probability re-run (enabled trace flag, distribution node, truthy name)
is not triggered. -/
theorem evalNodeF_memo (fuel : Nat) (nm fName : String) (outs : FnOutNames)
    (kind : FnKind) (args : List LazyArg) (s : EvalState)
    (hk : s.trace.hasKey nm = true)
    (hx : (s.trace.evalLogProbs && (kind.isDist && (nm != ""))) = false) :
    evalNodeF (fuel + 1) (LazyNode.mk nm outs fName kind args) s
      = (s.trace.getD nm, s) := by
  cases kind with
  | plain g => simp [evalNodeF, hk]
  | dist g =>
      have hx2 : (s.trace.evalLogProbs && (nm != "")) = false := by
        simpa [FnKind.isDist] using hx
      simp [evalNodeF, hk, hx2]

/-- First evaluation of a fresh single-name plain node with eager arguments:
`fn` is applied to the argument values, the result is stored under the name,
and `fn`'s invocation counter is bumped once. -/
theorem evalNodeF_fresh_plain (fuel : Nat) (nm fName : String)
    (g : List Val → Val) (args : List LazyArg) (s : EvalState)
    (hk : s.trace.hasKey nm = false) (ha : args.all LazyArg.isEager = true) :
    evalNodeF (fuel + 1)
        (LazyNode.mk nm (FnOutNames.single nm) fName (FnKind.plain g) args) s
      = (g (eagerVals args),
         { trace := s.trace.setItem nm (g (eagerVals args)),
           calls := (s.bump fName).calls }) := by
  have he := evalArgsF_eager (evalNodeF fuel) args ha s
  simp [evalNodeF, hk, he, Trace.storeResult, EvalState.bump,
    getD_setItem_fresh s.trace nm _ hk]

/-- First evaluation of a fresh single-name distribution node with eager
arguments, when the log-probability step does not run: `fn` builds the
instance (one invocation), its sample is stored under the name. -/
theorem evalNodeF_fresh_dist (fuel : Nat) (nm fName : String)
    (g : List Val → DistInstance) (args : List LazyArg) (s : EvalState)
    (hk : s.trace.hasKey nm = false) (ha : args.all LazyArg.isEager = true)
    (hx2 : (s.trace.evalLogProbs && (nm != "")) = false) :
    evalNodeF (fuel + 1)
        (LazyNode.mk nm (FnOutNames.single nm) fName (FnKind.dist g) args) s
      = ((g (eagerVals args)).sampleVal,
         { trace := s.trace.setItem nm (g (eagerVals args)).sampleVal,
           calls := (s.bump fName).calls }) := by
  have he := evalArgsF_eager (evalNodeF fuel) args ha s
  simp [evalNodeF, hk, he, Trace.storeResult, EvalState.bump,
    setItem_evalLogProbs, hx2, getD_setItem_fresh s.trace nm _ hk]

/-! Claim C1: idempotent memoization of `LazyValue.evaluate`. -/

/-- A concrete deterministic distribution factory used to exercise the
log-probability path of `LazyValue.evaluate`. -/
def c1DistFn : List Val → DistInstance := fun _ =>
  { sampleVal := Val.vint 7, log_prob := fun _ => Val.vint 0 }

/-- A distribution node named `x` with no arguments, `fn` labelled `f`. -/
def c1Node : LazyNode :=
  LazyNode.mk "x" (FnOutNames.single "x") "f" (FnKind.dist c1DistFn) []

/-- An empty trace with log-probability collection enabled. -/
def c1State0 : EvalState :=
  { trace := { entries := [], targets := none, pfx := "", evalLogProbs := true },
    calls := fun _ => 0 }

/-- Claim C1 as stated is false: on a trace created with log-probability
collection enabled, evaluating a distribution node twice invokes the
underlying `fn` twice, not once — the second `evaluate()` rebuilds the
distribution instance for the log-probability step (components.py:213-217)
even though it still returns the stored value. -/
theorem lazyvalue_dist_logprob_double_fn_call :
    (evalNodeF 1 c1Node (evalNodeF 1 c1Node c1State0).2).2.calls "f" = 2
    ∧ ¬((evalNodeF 1 c1Node (evalNodeF 1 c1Node c1State0).2).2.calls "f" = 1)
    ∧ (evalNodeF 1 c1Node (evalNodeF 1 c1Node c1State0).2).1
        = (evalNodeF 1 c1Node c1State0).1 := by
  refine ⟨by decide, by decide, by decide⟩

/-- Claim C1 (amended): for a `LazyValue` with eager arguments whose name is
not yet in the trace, evaluating twice yields bit-identical results and
leaves the state of the first evaluation untouched, and the underlying `fn`
is invoked exactly once across both evaluations — provided log-probability
collection is disabled, or the node is not a distribution node, or its name
is empty (otherwise each further `evaluate()` re-invokes `fn` to rebuild the
distribution instance, as the counterexample shows). -/
theorem lazyvalue_evaluate_memoized (nm fName : String) (kind : FnKind)
    (args : List LazyArg) (fuel : Nat) (s0 : EvalState)
    (ha : args.all LazyArg.isEager = true)
    (hk : s0.trace.hasKey nm = false)
    (hx : (s0.trace.evalLogProbs && (kind.isDist && (nm != ""))) = false) :
    (evalNodeF (fuel + 1) (LazyNode.mk nm (FnOutNames.single nm) fName kind args)
        (evalNodeF (fuel + 1) (LazyNode.mk nm (FnOutNames.single nm) fName kind args) s0).2).1
      = (evalNodeF (fuel + 1) (LazyNode.mk nm (FnOutNames.single nm) fName kind args) s0).1
    ∧ (evalNodeF (fuel + 1) (LazyNode.mk nm (FnOutNames.single nm) fName kind args)
        (evalNodeF (fuel + 1) (LazyNode.mk nm (FnOutNames.single nm) fName kind args) s0).2).2
      = (evalNodeF (fuel + 1) (LazyNode.mk nm (FnOutNames.single nm) fName kind args) s0).2
    ∧ ((evalNodeF (fuel + 1) (LazyNode.mk nm (FnOutNames.single nm) fName kind args) s0).2).calls fName
      = s0.calls fName + 1 := by
  cases kind with
  | plain g =>
      have h1 := evalNodeF_fresh_plain fuel nm fName g args s0 hk ha
      rw [h1]
      have hk2 : ((s0.trace.setItem nm (g (eagerVals args)))).hasKey nm = true :=
        hasKey_setItem_self _ _ _
      have h2 := evalNodeF_memo fuel nm fName (FnOutNames.single nm)
        (FnKind.plain g) args
        { trace := s0.trace.setItem nm (g (eagerVals args)),
          calls := (s0.bump fName).calls }
        hk2 (by simp [FnKind.isDist])
      rw [h2]
      refine ⟨getD_setItem_fresh _ _ _ hk, rfl, by simp [EvalState.bump]⟩
  | dist g =>
      have hx2 : (s0.trace.evalLogProbs && (nm != "")) = false := by
        simpa [FnKind.isDist] using hx
      have h1 := evalNodeF_fresh_dist fuel nm fName g args s0 hk ha hx2
      rw [h1]
      have hk2 : ((s0.trace.setItem nm (g (eagerVals args)).sampleVal)).hasKey nm = true :=
        hasKey_setItem_self _ _ _
      have h2 := evalNodeF_memo fuel nm fName (FnOutNames.single nm)
        (FnKind.dist g) args
        { trace := s0.trace.setItem nm (g (eagerVals args)).sampleVal,
          calls := (s0.bump fName).calls }
        hk2 (by simp [FnKind.isDist, setItem_evalLogProbs, hx2])
      rw [h2]
      refine ⟨getD_setItem_fresh _ _ _ hk, rfl, by simp [EvalState.bump]⟩

/-- A fresh evaluation state over an empty trace, shared by several witnesses. -/
def emptyState : EvalState :=
  { trace := { entries := [], targets := none, pfx := "", evalLogProbs := false },
    calls := fun _ => 0 }

/-- Witness for the amended C1 at a concrete plain node. -/
theorem lazyvalue_evaluate_memoized_witness :
    (evalNodeF (0 + 1)
        (LazyNode.mk "x" (FnOutNames.single "x") "f" (FnKind.plain fun _ => Val.vint 3) [])
        (evalNodeF (0 + 1)
          (LazyNode.mk "x" (FnOutNames.single "x") "f" (FnKind.plain fun _ => Val.vint 3) [])
          emptyState).2).1
      = (evalNodeF (0 + 1)
          (LazyNode.mk "x" (FnOutNames.single "x") "f" (FnKind.plain fun _ => Val.vint 3) [])
          emptyState).1
    ∧ (evalNodeF (0 + 1)
        (LazyNode.mk "x" (FnOutNames.single "x") "f" (FnKind.plain fun _ => Val.vint 3) [])
        (evalNodeF (0 + 1)
          (LazyNode.mk "x" (FnOutNames.single "x") "f" (FnKind.plain fun _ => Val.vint 3) [])
          emptyState).2).2
      = (evalNodeF (0 + 1)
          (LazyNode.mk "x" (FnOutNames.single "x") "f" (FnKind.plain fun _ => Val.vint 3) [])
          emptyState).2
    ∧ ((evalNodeF (0 + 1)
          (LazyNode.mk "x" (FnOutNames.single "x") "f" (FnKind.plain fun _ => Val.vint 3) [])
          emptyState).2).calls "f"
      = emptyState.calls "f" + 1 :=
  lazyvalue_evaluate_memoized "x" "f" (FnKind.plain fun _ => Val.vint 3) [] 0
    emptyState (by decide) (by decide) (by decide)

/-! Claim C3: composition of nested name-scoping strings. -/

/-- A fresh trace (no targets, so registration evaluates eagerly). -/
def c3Trace0 : Trace :=
  { entries := [], targets := none, pfx := "", evalLogProbs := false }

/-- State inside `trace.prefix("a")` nested inside `trace.prefix("b")`. -/
def c3State : EvalState :=
  { trace := (((c3Trace0.scopeEnter "b").1).scopeEnter "a").1,
    calls := fun _ => 0 }

/-- The state after registering the name `x` in the innermost scope. -/
def c3Run : EvalState :=
  match Trace._sample 1 c3State (NamesArg.single "x") "f"
      (FnKind.plain fun _ => Val.vint 1) [] with
  | Except.ok r => r.2
  | Except.error _ => c3State

/-- Claim C3 as stated is false: a name `x` registered inside
`trace.prefix("a")` nested inside `trace.prefix("b")` is stored under
`"abx"`, not under `"bax"` — `__enter__` (components.py:156) sets the trace
scoping string to `new ++ old`, so the innermost string ends up leftmost. -/
theorem nested_scope_key_is_abx :
    c3Run.trace.hasKey "bax" = false
    ∧ c3Run.trace.hasKey "abx" = true
    ∧ c3State.trace.pfx = "ab" := by
  refine ⟨by decide, by decide, by decide⟩

/-- Claim C3 (amended): inside `trace.prefix("a")` nested inside
`trace.prefix("b")` the active scoping string is `"ab"` (each newly entered
string is prepended in front of the active one), and a name `x` registered
there is stored under the trace key `"ab" ++ x`. -/
theorem nested_scope_combined_ab (s : EvalState) (hp : s.trace.pfx = "")
    (ht : s.trace.targets = none) (x fName : String) (g : List Val → Val)
    (args : List LazyArg) (ha : args.all LazyArg.isEager = true)
    (hk : s.trace.hasKey ("ab" ++ x) = false) (fuel : Nat) :
    ((((s.trace.scopeEnter "b").1).scopeEnter "a").1).pfx = "ab"
    ∧ ∀ res s1,
        Trace._sample (fuel + 1)
            { trace := (((s.trace.scopeEnter "b").1).scopeEnter "a").1,
              calls := s.calls }
            (NamesArg.single x) fName (FnKind.plain g) args
          = Except.ok (res, s1) →
        s1.trace.hasKey ("ab" ++ x) = true := by
  have hpfx : ((((s.trace.scopeEnter "b").1).scopeEnter "a").1).pfx = "ab" := by
    simp [Trace.scopeEnter, hp]
  refine ⟨hpfx, ?_⟩
  intro res s1 hok
  have ht2 : ((((s.trace.scopeEnter "b").1).scopeEnter "a").1).targets = none := ht
  have heager : eagerSingle (((s.trace.scopeEnter "b").1).scopeEnter "a").1
      (((((s.trace.scopeEnter "b").1).scopeEnter "a").1).pfx ++ x) = true := by
    simp [eagerSingle, ht2]
  rw [Trace._sample] at hok
  simp only [heager, if_true] at hok
  have hs1 : s1 = (evalNodeF (fuel + 1)
      (mkSingleNode (((s.trace.scopeEnter "b").1).scopeEnter "a").1 x fName
        (FnKind.plain g) args)
      { trace := (((s.trace.scopeEnter "b").1).scopeEnter "a").1,
        calls := s.calls }).2 := by
    cases hok
    rfl
  have hk2 : ((((s.trace.scopeEnter "b").1).scopeEnter "a").1).hasKey
      (((((s.trace.scopeEnter "b").1).scopeEnter "a").1).pfx ++ x) = false := by
    rw [hpfx]
    exact hk
  rw [hs1]
  rw [mkSingleNode]
  rw [evalNodeF_fresh_plain fuel
    (((((s.trace.scopeEnter "b").1).scopeEnter "a").1).pfx ++ x) fName g args
    { trace := (((s.trace.scopeEnter "b").1).scopeEnter "a").1, calls := s.calls }
    hk2 ha]
  show ((((s.trace.scopeEnter "b").1).scopeEnter "a").1.setItem
      (((((s.trace.scopeEnter "b").1).scopeEnter "a").1).pfx ++ x)
      (g (eagerVals args))).hasKey ("ab" ++ x) = true
  rw [hpfx]
  exact hasKey_setItem_self _ _ _

/-- Witness for the amended C3 at a concrete state and name. -/
theorem nested_scope_combined_ab_witness :
    ((((emptyState.trace.scopeEnter "b").1).scopeEnter "a").1).pfx = "ab"
    ∧ ∀ res s1,
        Trace._sample (0 + 1)
            { trace := (((emptyState.trace.scopeEnter "b").1).scopeEnter "a").1,
              calls := emptyState.calls }
            (NamesArg.single "x") "f" (FnKind.plain fun _ => Val.vint 1) []
          = Except.ok (res, s1) →
        s1.trace.hasKey ("ab" ++ "x") = true :=
  nested_scope_combined_ab emptyState (by decide) (by decide) "x" "f"
    (fun _ => Val.vint 1) [] (by decide) (by decide) 0

/-! Claim C9: scope exit restores the previous scoping string exactly. -/

/-- Claim C9: after `with trace.prefix(p)` exits — also when the body raised
an exception, which the context manager lets propagate — the trace's scoping
string is exactly the one from before entering, and entering/exiting changes
no trace state other than the scoping string (entries, targets and the
log-probability flag pass through untouched). -/
theorem scope_restores_trace_state (t : Trace) (p : String)
    (body : Trace → Trace × Option String) :
    ((t.withScope p body).1.pfx = t.pfx)
    ∧ ((t.withScope p body).1.entries = (body (t.scopeEnter p).1).1.entries)
    ∧ ((t.withScope p body).1.targets = (body (t.scopeEnter p).1).1.targets)
    ∧ ((t.withScope p body).1.evalLogProbs = (body (t.scopeEnter p).1).1.evalLogProbs)
    ∧ ((t.withScope p body).2 = (body (t.scopeEnter p).1).2)
    ∧ ((t.scopeEnter p).1.entries = t.entries)
    ∧ ((t.scopeEnter p).1.targets = t.targets)
    ∧ ((t.scopeEnter p).1.evalLogProbs = t.evalLogProbs) :=
  ⟨rfl, rfl, rfl, rfl, rfl, rfl, rfl, rfl⟩

/-! Claim C4: write-once keys.  `Grows t1 t2` says that `t2`'s entry list
extends `t1`'s by appending at the end — so every existing key keeps its
value and its insertion position. -/

def Grows (t1 t2 : Trace) : Prop :=
  ∃ d, t2.entries = t1.entries ++ d

theorem Grows.rfl (t : Trace) : Grows t t :=
  ⟨[], by simp⟩

theorem Grows.trans {a b c : Trace} (h1 : Grows a b) (h2 : Grows b c) :
    Grows a c := by
  obtain ⟨d1, e1⟩ := h1
  obtain ⟨d2, e2⟩ := h2
  exact ⟨d1 ++ d2, by rw [e2, e1, List.append_assoc]⟩

theorem Grows.setItem (t : Trace) (k : String) (v : Val) :
    Grows t (t.setItem k v) := by
  rw [Trace.setItem]
  split
  · exact Grows.rfl t
  · exact ⟨[(k, v)], by simp⟩

theorem Grows.storeResult (t : Trace) (outs : FnOutNames) (r : Val) :
    Grows t (t.storeResult outs r) := by
  cases outs with
  | single n => exact Grows.setItem t n r
  | multi ns =>
      show Grows t ((ns.zip r.elems).foldl (fun tr p => tr.setItem p.1 p.2) t)
      generalize ns.zip r.elems = l
      induction l generalizing t with
      | nil => exact Grows.rfl t
      | cons p rest ih =>
          exact Grows.trans (Grows.setItem t p.1 p.2) (ih _)

theorem evalArgsF_grows (ev : LazyNode → EvalState → Val × EvalState)
    (hev : ∀ n s, Grows s.trace ((ev n s).2).trace) :
    ∀ (l : List LazyArg) (s : EvalState),
      Grows s.trace ((evalArgsF ev l s).2).trace := by
  intro l
  induction l with
  | nil => intro s; exact Grows.rfl _
  | cons a rest ih =>
      intro s
      cases a with
      | eager v => exact ih s
      | lazy n => exact Grows.trans (hev n s) (ih ((ev n s).2))

theorem evalNodeF_grows :
    ∀ (fuel : Nat) (n : LazyNode) (s : EvalState),
      Grows s.trace ((evalNodeF fuel n s).2).trace := by
  intro fuel
  induction fuel with
  | zero => intro n s; exact Grows.rfl _
  | succ fuel ih =>
      intro n s
      obtain ⟨nm, outs, fName, kind, args⟩ := n
      have hargs := evalArgsF_grows (evalNodeF fuel) ih
      cases kind with
      | plain g =>
          by_cases hk : s.trace.hasKey nm = true
          · simp only [evalNodeF, hk, if_true]
            exact Grows.rfl _
          · simp only [Bool.not_eq_true] at hk
            simp only [evalNodeF, hk, Bool.false_eq_true, if_false]
            exact Grows.trans (hargs args s) (Grows.storeResult _ _ _)
      | dist g =>
          by_cases hk : s.trace.hasKey nm = true
          · simp only [evalNodeF, hk, if_true]
            split
            · exact Grows.trans (hargs args s) (Grows.setItem _ _ _)
            · exact Grows.rfl _
          · simp only [Bool.not_eq_true] at hk
            simp only [evalNodeF, hk, Bool.false_eq_true, if_false]
            split
            · exact Grows.trans (hargs args s)
                (Grows.trans (Grows.storeResult _ _ _) (Grows.setItem _ _ _))
            · exact Grows.trans (hargs args s) (Grows.storeResult _ _ _)

theorem sample_grows (fuel : Nat) (s : EvalState) (names : NamesArg)
    (fName : String) (kind : FnKind) (args : List LazyArg)
    (res : SampleRes) (s1 : EvalState)
    (hok : Trace._sample fuel s names fName kind args = Except.ok (res, s1)) :
    Grows s.trace s1.trace := by
  cases names with
  | badType => cases hok
  | single n =>
      rw [Trace._sample] at hok
      split at hok
      · cases hok
        exact evalNodeF_grows fuel _ s
      · cases hok
        exact Grows.rfl _
  | listNames ns =>
      rw [Trace._sample] at hok
      split at hok
      · split at hok
        · cases hok
          exact evalNodeF_grows fuel _ s
        · cases hok
      · cases hok
        exact Grows.rfl _

/-- Claim C4: a write to an existing trace key is a silent no-op (the trace
is returned completely unchanged, no error), and under every mutating
operation of the trace API — node evaluation, `sample` registration, scope
enter/exit — the entry list only grows by appending, so a key once set keeps
its value and its insertion position for the trace's lifetime. -/
theorem trace_write_once :
    (∀ (t : Trace) (k : String) (v : Val), t.hasKey k = true → t.setItem k v = t)
    ∧ (∀ (fuel : Nat) (n : LazyNode) (s : EvalState),
        Grows s.trace ((evalNodeF fuel n s).2).trace)
    ∧ (∀ (fuel : Nat) (s : EvalState) (names : NamesArg) (fName : String)
        (kind : FnKind) (args : List LazyArg) (res : SampleRes) (s1 : EvalState),
        Trace._sample fuel s names fName kind args = Except.ok (res, s1) →
        Grows s.trace s1.trace)
    ∧ (∀ (t : Trace) (p : String), ((t.scopeEnter p).1).entries = t.entries)
    ∧ (∀ (t : Trace) (sv : String), (t.scopeExit sv).entries = t.entries) := by
  refine ⟨?_, evalNodeF_grows, sample_grows, fun t p => rfl, fun t sv => rfl⟩
  intro t k v h
  rw [Trace.setItem, if_pos h]

/-- A trace already holding the key `x`, for the C4 witness. -/
def c4Trace : Trace :=
  { entries := [("x", Val.vint 1)], targets := none, pfx := "", evalLogProbs := false }

/-- A plain node writing `y`, for the C4 witness. -/
def c4Node : LazyNode :=
  LazyNode.mk "y" (FnOutNames.single "y") "g" (FnKind.plain fun _ => Val.vint 2) []

/-- Witness for C4: overwriting the existing key `x` is a no-op, and
evaluating a node only appends to the entries. -/
theorem trace_write_once_witness :
    c4Trace.setItem "x" (Val.vint 9) = c4Trace
    ∧ Grows c4Trace ((evalNodeF 1 c4Node { trace := c4Trace, calls := fun _ => 0 }).2).trace :=
  ⟨trace_write_once.1 c4Trace "x" (Val.vint 9) (by decide),
   trace_write_once.2.1 1 c4Node { trace := c4Trace, calls := fun _ => 0 }⟩

/-! Claim C10: eager-versus-lazy decision at registration time. -/

/-- Claim C10: `_sample` evaluates the registered node at registration time
precisely when the trace has no target list or one of the node's prefixed
output names is a target (for a name list: its first node, which populates
all names); otherwise the returned state is the input state, so nothing is
evaluated and no function is invoked.  With no target list the eager test is
always true.  When the (single, prefixed) name is fresh and the arguments
are eager, the registration-time evaluation invokes `fn` exactly once and
populates the trace before `sample` returns. -/
theorem sample_eager_iff_target :
    (∀ (fuel : Nat) (s : EvalState) (n fName : String) (kind : FnKind)
        (args : List LazyArg),
        eagerSingle s.trace (s.trace.pfx ++ n) = true →
        Trace._sample fuel s (NamesArg.single n) fName kind args
          = Except.ok (SampleRes.one (mkSingleNode s.trace n fName kind args),
              (evalNodeF fuel (mkSingleNode s.trace n fName kind args) s).2))
    ∧ (∀ (fuel : Nat) (s : EvalState) (n fName : String) (kind : FnKind)
        (args : List LazyArg),
        eagerSingle s.trace (s.trace.pfx ++ n) = false →
        Trace._sample fuel s (NamesArg.single n) fName kind args
          = Except.ok (SampleRes.one (mkSingleNode s.trace n fName kind args), s))
    ∧ (∀ (t : Trace) (name : String), t.targets = none → eagerSingle t name = true)
    ∧ (∀ (fuel : Nat) (s : EvalState) (m : String) (ms : List String)
        (fName : String) (kind : FnKind) (args : List LazyArg),
        eagerMulti s.trace ((m :: ms).map fun q => s.trace.pfx ++ q) = true →
        ∃ lv0 rest, mkListNodes s.trace (m :: ms) fName kind args = lv0 :: rest
          ∧ Trace._sample fuel s (NamesArg.listNames (m :: ms)) fName kind args
              = Except.ok (SampleRes.many (mkListNodes s.trace (m :: ms) fName kind args),
                  (evalNodeF fuel lv0 s).2))
    ∧ (∀ (fuel : Nat) (s : EvalState) (ns : List String) (fName : String)
        (kind : FnKind) (args : List LazyArg),
        eagerMulti s.trace (ns.map fun q => s.trace.pfx ++ q) = false →
        Trace._sample fuel s (NamesArg.listNames ns) fName kind args
          = Except.ok (SampleRes.many (mkListNodes s.trace ns fName kind args), s))
    ∧ (∀ (fuel : Nat) (s : EvalState) (n fName : String) (g : List Val → Val)
        (args : List LazyArg),
        s.trace.hasKey (s.trace.pfx ++ n) = false →
        args.all LazyArg.isEager = true →
        ((evalNodeF (fuel + 1) (mkSingleNode s.trace n fName (FnKind.plain g) args) s).2).calls fName
            = s.calls fName + 1
        ∧ ((evalNodeF (fuel + 1) (mkSingleNode s.trace n fName (FnKind.plain g) args) s).2).trace.hasKey
            (s.trace.pfx ++ n) = true) := by
  refine ⟨?_, ?_, ?_, ?_, ?_, ?_⟩
  · intro fuel s n fName kind args h
    rw [Trace._sample]
    simp only [h, if_true]
  · intro fuel s n fName kind args h
    rw [Trace._sample]
    simp only [h, Bool.false_eq_true, if_false]
  · intro t name h
    simp [eagerSingle, h]
  · intro fuel s m ms fName kind args h
    refine ⟨LazyNode.mk (s.trace.pfx ++ m)
      (FnOutNames.multi ((m :: ms).map fun q => s.trace.pfx ++ q)) fName kind args,
      (ms.map fun q => s.trace.pfx ++ q).map (fun k =>
        LazyNode.mk k (FnOutNames.multi ((m :: ms).map fun q => s.trace.pfx ++ q)) fName kind args),
      rfl, ?_⟩
    rw [Trace._sample]
    simp only [h, if_true]
    rfl
  · intro fuel s ns fName kind args h
    rw [Trace._sample]
    simp only [h, Bool.false_eq_true, if_false]
  · intro fuel s n fName g args hk ha
    rw [mkSingleNode, evalNodeF_fresh_plain fuel (s.trace.pfx ++ n) fName g args s hk ha]
    exact ⟨by simp [EvalState.bump], hasKey_setItem_self _ _ _⟩

/-- Witness for C10 at concrete inputs: with no targets the registration of
`y` on `c4Trace` is eager, and with targets `["z"]` not containing the name
it is lazy. -/
theorem sample_eager_iff_target_witness :
    Trace._sample 1 { trace := c4Trace, calls := fun _ => 0 } (NamesArg.single "y")
        "g" (FnKind.plain fun _ => Val.vint 2) []
      = Except.ok (SampleRes.one (mkSingleNode c4Trace "y" "g"
            (FnKind.plain fun _ => Val.vint 2) []),
          (evalNodeF 1 (mkSingleNode c4Trace "y" "g"
            (FnKind.plain fun _ => Val.vint 2) [])
            { trace := c4Trace, calls := fun _ => 0 }).2)
    ∧ Trace._sample 1
        { trace := { c4Trace with targets := some ["z"] }, calls := fun _ => 0 }
        (NamesArg.single "y") "g" (FnKind.plain fun _ => Val.vint 2) []
      = Except.ok (SampleRes.one (mkSingleNode { c4Trace with targets := some ["z"] }
            "y" "g" (FnKind.plain fun _ => Val.vint 2) []),
          { trace := { c4Trace with targets := some ["z"] }, calls := fun _ => 0 }) :=
  ⟨sample_eager_iff_target.1 1 { trace := c4Trace, calls := fun _ => 0 } "y" "g"
      (FnKind.plain fun _ => Val.vint 2) [] (by decide),
   sample_eager_iff_target.2.1 1
      { trace := { c4Trace with targets := some ["z"] }, calls := fun _ => 0 } "y" "g"
      (FnKind.plain fun _ => Val.vint 2) [] (by decide)⟩

/-! Claims C5 and C6: the `Simulator._run` driver. -/

/-- Claim C5: when a target list is given and — after the DAG-construction
function has run (it is skipped only if the initial conditions already cover
the targets) — some requested target is still not a key of the trace, `_run`
fails synchronously with the missing-targets `ValueError`; there is no
retry, the error is the immediate result of that single run. -/
theorem run_missing_targets_error (fwd : EvalState → EvalState)
    (onB onA : List (String × Val) → List (String × Val)) (ts : List String)
    (conditions : List (String × Val)) (lp : Bool)
    (h1 : ((if (Trace.make (some ts) (onB conditions) lp).covers_targets then
        ({ trace := Trace.make (some ts) (onB conditions) lp, calls := fun _ => 0 } : EvalState)
      else fwd { trace := Trace.make (some ts) (onB conditions) lp, calls := fun _ => 0 })).trace.targets = some ts)
    (h2 : ∃ k, k ∈ ts ∧ ((if (Trace.make (some ts) (onB conditions) lp).covers_targets then
        ({ trace := Trace.make (some ts) (onB conditions) lp, calls := fun _ => 0 } : EvalState)
      else fwd { trace := Trace.make (some ts) (onB conditions) lp, calls := fun _ => 0 })).trace.hasKey k = false) :
    Simulator._run fwd onB onA (some ts) conditions lp
      = Except.error "Missing simulation targets." := by
  obtain ⟨k, hmem, hfk⟩ := h2
  have hcov : ((if (Trace.make (some ts) (onB conditions) lp).covers_targets then
      ({ trace := Trace.make (some ts) (onB conditions) lp, calls := fun _ => 0 } : EvalState)
    else fwd { trace := Trace.make (some ts) (onB conditions) lp, calls := fun _ => 0 })).trace.covers_targets = false := by
    rw [Trace.covers_targets, h1]
    rw [List.all_eq_false]
    exact ⟨k, hmem, by simp [hfk]⟩
  rw [Simulator._run]
  simp only [hcov, Option.isSome_some, Bool.not_false, Bool.and_true, if_true]

/-- Witness for C5: the construction function writes nothing, the single
target `q` stays uncovered, and the run errors out. -/
theorem run_missing_targets_error_witness :
    Simulator._run id id id (some ["q"]) [] false
      = Except.error "Missing simulation targets." :=
  run_missing_targets_error id id id ["q"] [] false (by decide)
    ⟨"q", by decide, by decide⟩

/-- Claim C6: when the initial conditions already cover all requested
targets, the DAG-construction function is never invoked — the result does
not depend on it at all — and the run returns the post-processed condition
dict; in particular `run_one(targets=["x"], conditions={"x": 5})` (with
identity hooks) returns exactly the mapping `x = 5` for every construction
function. -/
theorem run_conditioning_short_circuit :
    (∀ fwd : EvalState → EvalState,
        Simulator._run fwd id id (some ["x"]) [("x", Val.vint 5)] false
          = Except.ok [("x", Val.vint 5)])
    ∧ (∀ (fwd : EvalState → EvalState)
        (onB onA : List (String × Val) → List (String × Val))
        (targets : Option (List String)) (conditions : List (String × Val))
        (lp : Bool),
        (Trace.make targets (onB conditions) lp).covers_targets = true →
        Simulator._run fwd onB onA targets conditions lp
          = Except.ok (onA (Trace.make targets (onB conditions) lp).entries)) := by
  constructor
  · intro fwd
    rfl
  · intro fwd onB onA targets conditions lp h
    rw [Simulator._run]
    simp only [h, if_true, Bool.not_true, Bool.and_false, Bool.false_eq_true,
      if_false]

/-- Witness for C6's general part at concrete inputs. -/
theorem run_conditioning_short_circuit_witness :
    Simulator._run id id id (some ["y"]) [("y", Val.vint 1)] false
      = Except.ok [("y", Val.vint 1)] :=
  run_conditioning_short_circuit.2 id id id (some ["y"]) [("y", Val.vint 1)]
    false (by decide)

/-- Claim C7: `get_index_slices([2,3,4,7,8,10])` returns exactly the three
runs `[0,3) -> [2,5)`, `[3,5) -> [7,9)` and `[5,6) -> [10,11)`, each encoded
as `[positions, index range]`. -/
theorem get_index_slices_example :
    get_index_slices [2, 3, 4, 7, 8, 10]
      = [[[0, 3], [2, 5]], [[3, 5], [7, 9]], [[5, 6], [10, 11]]] := by
  decide

/-! Claims C2 and C8: the `ZarrStore`. -/

/-- An initialized store with one variable `x` of shape `(3, 2)`, chunked at
1, holding `f8` data. -/
def zstoreA : ZarrStore :=
  { data := some [("x", ⟨[3, 2], [1, 2], "f8"⟩)],
    simStatus := some ⟨[3], [1], "i4"⟩,
    chunkAttr := some 1 }

/-- Claim C2 as stated is false: `init` on an already-initialized store does
not validate the supplied schema — here `zstoreA` records shape `(3, 2)` and
dtype `f8` for `x`, yet `init` with per-sample shape `(5,)` and dtype `f4`
returns the store unchanged as a success instead of failing with a schema
mismatch (`ZarrStore.init` returns as soon as `len(self) > 0`,
components.py:1107-1109, and the consistency checks of `_init_shapes` are
never reached). -/
theorem zarr_init_mismatch_not_detected :
    zstoreA.init 3 1 [("x", [5])] [("x", "f4")] = Except.ok zstoreA := by
  decide

/-- Claim C2 (amended): on a store of nonzero length, `init` is a no-op that
returns the store unchanged (printing a warning) for every supplied schema,
matching or not; the per-variable shape/chunk/dtype consistency checks of
`_init_shapes` run only when the store length is zero, so a mismatch is not
surfaced at init time on an initialized store. -/
theorem zarr_init_noop_when_initialized (st : ZarrStore) (N chunk_size : Nat)
    (shapes : List (String × List Nat)) (dtypes : List (String × String))
    (n : Nat) (hn : st.lenE = Except.ok n) (hpos : 0 < n) :
    st.init N chunk_size shapes dtypes = Except.ok st := by
  rw [ZarrStore.init, hn]
  exact if_pos hpos

/-- Witness for the amended C2: re-initializing `zstoreA` with a mismatched
schema succeeds and leaves it unchanged. -/
theorem zarr_init_noop_when_initialized_witness :
    zstoreA.init 4 2 [("x", [9])] [("x", "i2")] = Except.ok zstoreA :=
  zarr_init_noop_when_initialized zstoreA 4 2 [("x", [9])] [("x", "i2")] 3
    (by decide) (by decide)

/-- Claim C8: `set_length(N)` on a store of length `n` fails with the
shrink-rejection `ValueError` when `N < n` and `clubber` is not set — the
check precedes every resize, so no array is touched — while with `N ≥ n`
(or with `clubber = True`) every per-variable data array is resized to
leading extent `N` and the status array to shape `(N,)`. -/
theorem zarr_set_length_spec (st : ZarrStore) (N n : Nat)
    (l : List (String × ZArr)) (ss : ZArr)
    (hn : st.lenE = Except.ok n) (hd : st.data = some l)
    (hs : st.simStatus = some ss) :
    (N < n → st.set_length N false
        = Except.error "New length shorter than current store length")
    ∧ (n ≤ N → st.set_length N false
        = Except.ok { st with data := some (l.map fun p => (p.1, p.2.resizeLen N)),
                              simStatus := some { ss with shape := [N] } })
    ∧ (st.set_length N true
        = Except.ok { st with data := some (l.map fun p => (p.1, p.2.resizeLen N)),
                              simStatus := some { ss with shape := [N] } })
    ∧ (∀ q ∈ l.map fun p => (p.1, p.2.resizeLen N), q.2.shape.headD 0 = N) := by
  refine ⟨?_, ?_, ?_, ?_⟩
  · intro hlt
    rw [ZarrStore.set_length, hn]
    exact if_pos ⟨hlt, rfl⟩
  · intro hle
    have hlt : ¬ N < n := Nat.not_lt.mpr hle
    simp [ZarrStore.set_length, hn, hd, hs, hlt]
  · simp [ZarrStore.set_length, hn, hd, hs]
  · intro q hq
    simp only [List.mem_map] at hq
    obtain ⟨p, hp, hpe⟩ := hq
    rw [← hpe]
    simp [ZArr.resizeLen]

/-- An initialized store of length 3 for the C8 witness. -/
def zstoreB : ZarrStore :=
  { data := some [("z", ⟨[3, 4], [1, 4], "f8"⟩)],
    simStatus := some ⟨[3], [1], "i4"⟩,
    chunkAttr := some 1 }

/-- Witness for C8: shrinking `zstoreB` from 3 to 2 rows without `clubber`
is rejected, and growing it to 5 rows resizes both arrays. -/
theorem zarr_set_length_spec_witness :
    (zstoreB.set_length 2 false
        = Except.error "New length shorter than current store length")
    ∧ (zstoreB.set_length 5 false
        = Except.ok { zstoreB with
            data := some [("z", ⟨[5, 4], [1, 4], "f8"⟩)],
            simStatus := some ⟨[5], [1], "i4"⟩ }) :=
  ⟨(zarr_set_length_spec zstoreB 2 3 [("z", ⟨[3, 4], [1, 4], "f8"⟩)]
      ⟨[3], [1], "i4"⟩ (by decide) (by decide) (by decide)).1 (by decide),
   (zarr_set_length_spec zstoreB 5 3 [("z", ⟨[3, 4], [1, 4], "f8"⟩)]
      ⟨[3], [1], "i4"⟩ (by decide) (by decide) (by decide)).2.1 (by decide)⟩

end Swyft
